import Mathlib

/-!
Verification development for the offline-first synchronization core of the
log-ex repository: the sync queue with merge-on-enqueue (lib/sync/queue.ts),
the push pipeline (lib/sync/push.ts), the pull pipeline (lib/sync/pull.ts)
and the orchestrator (lib/sync/index.ts), shallowly embedded over explicit
state.  Identifiers (uuids, server row ids) and ISO-8601 timestamps are
modelled as naturals; JavaScript records are modelled as association lists
of dynamic values.
-/

namespace LogEx

/-- The three remote-synchronized tables (type SyncTable in types/index.ts). -/
inductive SyncTable where
  | expenses
  | categories
  | preferences
deriving DecidableEq, Repr

/-- Queue operations (type SyncOperation in types/index.ts). -/
inductive SyncOperation where
  | create
  | update
  | delete
deriving DecidableEq, Repr

/-- Dynamic JSON-like values, standing for the unknown-typed payload fields
of a queued action. -/
inductive JsonVal where
  | str (s : String)
  | num (n : Int)
  | boolV (b : Bool)
  | nullV
deriving DecidableEq, Repr

/-- JavaScript truthiness of a dynamic value. -/
def JsonVal.truthy : JsonVal → Bool
  | JsonVal.str s => s ≠ ""
  | JsonVal.num n => n ≠ 0
  | JsonVal.boolV b => b
  | JsonVal.nullV => false

/-- A payload of shape Record of string to unknown, as an association list. -/
abbrev Payload := List (String × JsonVal)

/-- JavaScript object spread of two records, first a then b: the keys of a
in order, with values overridden by b where b also has the key, followed by
the keys of b absent from a.  This is the semantics of the payload merge
written with spread syntax at queue.ts line 43. -/
def spreadMerge (a b : Payload) : Payload :=
  a.map (fun kv =>
    match b.lookup kv.1 with
    | some v => (kv.1, v)
    | none => kv)
  ++ b.filter (fun kv => (a.lookup kv.1).isNone)

/-- A queued mutation awaiting transmission (interface SyncAction in
types/index.ts). -/
structure SyncAction where
  id : Nat
  table : SyncTable
  operation : SyncOperation
  entityId : String
  payload : Payload
  timestamp : Nat
  retryCount : Nat
deriving DecidableEq, Repr

/-- removeFromSyncQueue from lib/db: delete the action with the given id. -/
def removeFromSyncQueue (id : Nat) (q : List SyncAction) : List SyncAction :=
  q.filter (fun a => a.id != id)

/-- updateSyncQueueItem from lib/db: apply a partial update to the action
with the given id.  The partial record passed at each call site in the
source is modelled as the corresponding whole-record update function. -/
def updateSyncQueueItem (id : Nat) (f : SyncAction → SyncAction)
    (q : List SyncAction) : List SyncAction :=
  q.map (fun a => if a.id == id then f a else a)

/-- queueSyncAction from lib/sync/queue.ts, the merge-on-enqueue algorithm.
The argument now stands for the freshly read clock and fresh for the
generated uuid of a newly appended action. -/
def queueSyncAction (table : SyncTable) (operation : SyncOperation)
    (entityId : String) (payload : Payload) (now fresh : Nat)
    (queue : List SyncAction) : List SyncAction :=
  match queue.find? (fun a => a.table == table && a.entityId == entityId) with
  | some existingAction =>
      if operation == SyncOperation.delete then
        if existingAction.operation == SyncOperation.create then
          removeFromSyncQueue existingAction.id queue
        else
          updateSyncQueueItem existingAction.id
            (fun a => { a with
              operation := SyncOperation.delete
              payload := payload
              timestamp := now }) queue
      else if operation == SyncOperation.update
          && existingAction.operation != SyncOperation.delete then
        updateSyncQueueItem existingAction.id
          (fun a => { a with
            payload := spreadMerge a.payload payload
            timestamp := now }) queue
      else
        queue
  | none =>
      queue ++ [{ id := fresh, table := table, operation := operation,
                  entityId := entityId, payload := payload,
                  timestamp := now, retryCount := 0 }]

/-- MAX_RETRIES constant of lib/sync/queue.ts. -/
def MAX_RETRIES : Nat := 3

/-- markActionFailed from lib/sync/queue.ts: bump the retry count, drop the
action once the cap is reached.  Returns the should-retry flag paired with
the updated queue. -/
def markActionFailed (actionId : Nat) (q : List SyncAction) :
    Bool × List SyncAction :=
  match q.find? (fun a => a.id == actionId) with
  | none => (false, q)
  | some action =>
      let newRetryCount := action.retryCount + 1
      if newRetryCount ≥ MAX_RETRIES then
        (false, removeFromSyncQueue actionId q)
      else
        (true, updateSyncQueueItem actionId
          (fun a => { a with retryCount := newRetryCount }) q)

/-- markActionComplete from lib/sync/queue.ts. -/
def markActionComplete (actionId : Nat) (q : List SyncAction) :
    List SyncAction :=
  removeFromSyncQueue actionId q

/-- getPendingActions from lib/sync/queue.ts: a snapshot of the queue. -/
def getPendingActions (q : List SyncAction) : List SyncAction := q

/-- Result record of pushChanges (lib/sync/push.ts). -/
structure PushResult where
  success : Bool
  pushed : Nat
  failed : Nat
  errors : List String
deriving DecidableEq, Repr

/-- Outcome of one table-specific transmit call as observed by the loop of
pushChanges: success, reported failure (the transmit function returned
false), or a thrown exception carrying its message. -/
inductive TransmitOutcome where
  | ok
  | fail
  | exn (msg : String)
deriving DecidableEq, Repr

/-- Rendering of a SyncTable value inside the interpolated error strings of
push.ts. -/
def tableName : SyncTable → String
  | SyncTable.expenses => "expenses"
  | SyncTable.categories => "categories"
  | SyncTable.preferences => "preferences"

/-- The error string push.ts appends when retries are exhausted after a
reported transmit failure (line 38). -/
def failedMsg (a : SyncAction) : String :=
  "Failed to sync " ++ tableName a.table ++ ":" ++ a.entityId
    ++ " after max retries"

/-- The error string push.ts appends when retries are exhausted after a
thrown exception (line 46). -/
def exnMsg (a : SyncAction) (m : String) : String :=
  "Error syncing " ++ tableName a.table ++ ":" ++ a.entityId ++ ": " ++ m

/-- The for-loop of pushChanges: iterate the snapshot of the queue while
mutating the live queue and accumulating the result record.  Note that the
source sets success to false only in the catch branch (line 49), not when
the transmit merely reports failure. -/
def pushLoop (transmit : SyncAction → TransmitOutcome) :
    List SyncAction → List SyncAction → PushResult →
    PushResult × List SyncAction
  | [], q, r => (r, q)
  | action :: rest, q, r =>
      match transmit action with
      | TransmitOutcome.ok =>
          pushLoop transmit rest (markActionComplete action.id q)
            { r with pushed := r.pushed + 1 }
      | TransmitOutcome.fail =>
          let res := markActionFailed action.id q
          if res.1 then
            pushLoop transmit rest res.2 r
          else
            pushLoop transmit rest res.2
              { r with failed := r.failed + 1,
                       errors := r.errors ++ [failedMsg action] }
      | TransmitOutcome.exn m =>
          let res := markActionFailed action.id q
          if res.1 then
            pushLoop transmit rest res.2 { r with success := false }
          else
            pushLoop transmit rest res.2
              { r with success := false,
                       failed := r.failed + 1,
                       errors := r.errors ++ [exnMsg action m] }

/-- pushChanges from lib/sync/push.ts, abstracted over the per-action
transmit outcome (pushAction wraps the network and the local status
bookkeeping; its observable effect on the loop is the ternary outcome).
Returns the result record and the queue left behind. -/
def pushChanges (transmit : SyncAction → TransmitOutcome)
    (queue : List SyncAction) : PushResult × List SyncAction :=
  pushLoop transmit (getPendingActions queue) queue
    { success := true, pushed := 0, failed := 0, errors := [] }


/-! ### Queue merge invariant (claims about queueSyncAction) -/

/-- Number of queued actions held for one key (table, entityId). -/
def countKey (q : List SyncAction) (t : SyncTable) (e : String) : Nat :=
  (q.filter (fun a => a.table == t && a.entityId == e)).length

/-- One enqueue call on a fixed key: the operation and the payload it
carries. -/
structure EnqueueCall where
  operation : SyncOperation
  payload : Payload
deriving DecidableEq, Repr

/-- Run a sequence of queueSyncAction calls on one key, drawing strictly
increasing clock values and fresh ids from n. -/
def runEnqueues (t : SyncTable) (e : String) :
    List EnqueueCall → Nat → List SyncAction → List SyncAction
  | [], _, q => q
  | c :: cs, n, q =>
      runEnqueues t e cs (n + 1)
        (queueSyncAction t c.operation e c.payload n n q)

lemma countKey_filter_le (q : List SyncAction) (t : SyncTable) (e : String)
    (keep : SyncAction → Bool) :
    countKey (q.filter keep) t e ≤ countKey q t e := by
  unfold countKey
  exact ((List.filter_sublist q).filter _).length_le

lemma countKey_updateSyncQueueItem (q : List SyncAction) (i : Nat)
    (t : SyncTable) (e : String) (g : SyncAction → SyncAction)
    (hg : ∀ a, (g a).table = a.table ∧ (g a).entityId = a.entityId) :
    countKey (updateSyncQueueItem i g q) t e = countKey q t e := by
  unfold countKey updateSyncQueueItem
  rw [List.filter_map, List.length_map]
  congr 1
  apply List.filter_congr
  intro a _
  by_cases hid : (a.id == i) = true
  · simp [Function.comp, hid, (hg a).1, (hg a).2]
  · simp [Function.comp, hid]

lemma countKey_queueSyncAction_le (t : SyncTable) (op : SyncOperation)
    (e : String) (p : Payload) (now fresh : Nat) (q : List SyncAction)
    (h : countKey q t e ≤ 1) :
    countKey (queueSyncAction t op e p now fresh q) t e ≤ 1 := by
  unfold queueSyncAction
  split
  · split
    · split
      · exact le_trans (countKey_filter_le q t e _) h
      · rw [countKey_updateSyncQueueItem]
        · exact h
        · intro a; exact ⟨rfl, rfl⟩
    · split
      · rw [countKey_updateSyncQueueItem]
        · exact h
        · intro a; exact ⟨rfl, rfl⟩
      · exact h
  · next hfind =>
      have hall := List.find?_eq_none.mp hfind
      have h0 : q.filter (fun a => a.table == t && a.entityId == e) = [] := by
        apply List.filter_eq_nil_iff.mpr
        intro a ha
        simpa using hall a ha
      unfold countKey
      rw [List.filter_append, h0]
      simp

lemma countKey_runEnqueues (t : SyncTable) (e : String)
    (calls : List EnqueueCall) :
    ∀ (n : Nat) (q : List SyncAction), countKey q t e ≤ 1 →
      countKey (runEnqueues t e calls n q) t e ≤ 1 := by
  induction calls with
  | nil => intro n q h; exact h
  | cons c cs ih =>
      intro n q h
      exact ih _ _ (countKey_queueSyncAction_le t c.operation e c.payload n n q h)

/-- C1: every sequence of queueSyncAction calls on one (table, entityId) key
leaves at most one queued action for that key, and the pairwise merges give:
create then delete removes the action; create then update keeps a create
with the spread-merged payload; update then update keeps an update with the
merged payload; update then delete keeps a delete carrying the delete
payload; delete then update leaves the delete action untouched. -/
theorem queue_merge_invariant (t : SyncTable) (e : String)
    (p1 p2 : Payload) (n1 n2 f1 f2 : Nat) (calls : List EnqueueCall)
    (n : Nat) :
    countKey (runEnqueues t e calls n []) t e ≤ 1
    ∧ queueSyncAction t SyncOperation.delete e p2 n2 f2
        (queueSyncAction t SyncOperation.create e p1 n1 f1 []) = []
    ∧ queueSyncAction t SyncOperation.update e p2 n2 f2
        (queueSyncAction t SyncOperation.create e p1 n1 f1 [])
      = [{ id := f1, table := t, operation := SyncOperation.create,
           entityId := e, payload := spreadMerge p1 p2, timestamp := n2,
           retryCount := 0 }]
    ∧ queueSyncAction t SyncOperation.update e p2 n2 f2
        (queueSyncAction t SyncOperation.update e p1 n1 f1 [])
      = [{ id := f1, table := t, operation := SyncOperation.update,
           entityId := e, payload := spreadMerge p1 p2, timestamp := n2,
           retryCount := 0 }]
    ∧ queueSyncAction t SyncOperation.delete e p2 n2 f2
        (queueSyncAction t SyncOperation.update e p1 n1 f1 [])
      = [{ id := f1, table := t, operation := SyncOperation.delete,
           entityId := e, payload := p2, timestamp := n2, retryCount := 0 }]
    ∧ queueSyncAction t SyncOperation.update e p2 n2 f2
        (queueSyncAction t SyncOperation.delete e p1 n1 f1 [])
      = [{ id := f1, table := t, operation := SyncOperation.delete,
           entityId := e, payload := p1, timestamp := n1,
           retryCount := 0 }] := by
  refine ⟨countKey_runEnqueues t e calls n [] (by simp [countKey]), ?_, ?_, ?_, ?_, ?_⟩
  all_goals
    simp [queueSyncAction, removeFromSyncQueue, updateSyncQueueItem,
      List.find?, List.filter, List.map]

/-- C10: when the queue already holds an action for the key, a create call
is a complete no-op: the queue is returned unchanged and the new payload is
discarded. -/
theorem queue_create_on_existing_noop (t : SyncTable) (e : String)
    (p : Payload) (now fresh : Nat) (q : List SyncAction) (a : SyncAction)
    (h : q.find? (fun x => x.table == t && x.entityId == e) = some a) :
    queueSyncAction t SyncOperation.create e p now fresh q = q := by
  unfold queueSyncAction
  rw [h]
  simp

/-- Sample action used to instantiate the hypotheses of the queue no-op
theorem. -/
def c10SampleAction : SyncAction :=
  { id := 7, table := SyncTable.expenses, operation := SyncOperation.update,
    entityId := "e1", payload := [], timestamp := 1, retryCount := 0 }

theorem queue_create_on_existing_noop_witness :
    queueSyncAction SyncTable.expenses SyncOperation.create "e1"
      [("amount", JsonVal.num 5)] 5 6 [c10SampleAction] = [c10SampleAction] :=
  queue_create_on_existing_noop SyncTable.expenses "e1"
    [("amount", JsonVal.num 5)] 5 6 [c10SampleAction] c10SampleAction
    (by decide)

/-- C5: markActionFailed increments the retry count, drops the action and
reports permanent failure (false) exactly when the incremented count reaches
the cap of 3, and otherwise keeps it queued with the new count; in the push
pipeline an action failing on three consecutive cycles is removed and
reported in failed and errors on the third cycle only, while an action
failing twice and then succeeding is removed with pushed incremented and is
never reported as failed. -/
theorem retry_ceiling (a : SyncAction) (n : Nat) :
    (markActionFailed a.id [{ a with retryCount := n }] =
      if MAX_RETRIES ≤ n + 1 then (false, ([] : List SyncAction))
      else (true, [{ a with retryCount := n + 1 }]))
    ∧ (pushChanges (fun _ => TransmitOutcome.fail) [{ a with retryCount := 0 }]
        = ({ success := true, pushed := 0, failed := 0, errors := [] },
           [{ a with retryCount := 1 }]))
    ∧ (pushChanges (fun _ => TransmitOutcome.fail) [{ a with retryCount := 1 }]
        = ({ success := true, pushed := 0, failed := 0, errors := [] },
           [{ a with retryCount := 2 }]))
    ∧ (pushChanges (fun _ => TransmitOutcome.fail) [{ a with retryCount := 2 }]
        = ({ success := true, pushed := 0, failed := 1,
             errors := [failedMsg a] }, []))
    ∧ (pushChanges (fun _ => TransmitOutcome.ok) [{ a with retryCount := 2 }]
        = ({ success := true, pushed := 1, failed := 0, errors := [] },
           [])) := by
  refine ⟨?_, ?_, ?_, ?_, ?_⟩
  · by_cases hn : MAX_RETRIES ≤ n + 1
    · simp [markActionFailed, removeFromSyncQueue, List.find?, hn]
    · simp [markActionFailed, updateSyncQueueItem, List.find?, hn]
  all_goals
    simp [pushChanges, pushLoop, getPendingActions, markActionFailed,
      markActionComplete, removeFromSyncQueue, updateSyncQueueItem,
      MAX_RETRIES, List.find?, failedMsg]

/-! ### Push pipeline error reporting (pushChanges) -/

lemma pushLoop_success_false_iff (transmit : SyncAction → TransmitOutcome) :
    ∀ (rest : List SyncAction) (q : List SyncAction) (r : PushResult),
    ((pushLoop transmit rest q r).1.success = false ↔
      r.success = false ∨ ∃ a ∈ rest, ∃ m, transmit a = TransmitOutcome.exn m) := by
  intro rest
  induction rest with
  | nil => intro q r; simp [pushLoop]
  | cons a rest ih =>
      intro q r
      cases hta : transmit a with
      | ok => simp [pushLoop, hta, ih]
      | fail =>
          cases hres : (markActionFailed a.id q).1 with
          | true => simp [pushLoop, hta, hres, ih]
          | false => simp [pushLoop, hta, hres, ih]
      | exn m =>
          cases hres : (markActionFailed a.id q).1 with
          | true => simp [pushLoop, hta, hres, ih]
          | false => simp [pushLoop, hta, hres, ih]

lemma pushLoop_mono (transmit : SyncAction → TransmitOutcome) :
    ∀ (rest : List SyncAction) (q : List SyncAction) (r : PushResult),
      r.failed ≤ (pushLoop transmit rest q r).1.failed
      ∧ ∀ m ∈ r.errors, m ∈ (pushLoop transmit rest q r).1.errors := by
  intro rest
  induction rest with
  | nil => intro q r; simp [pushLoop]
  | cons a rest ih =>
      intro q r
      cases hta : transmit a with
      | ok =>
          have := ih (markActionComplete a.id q)
            { r with pushed := r.pushed + 1 }
          simpa [pushLoop, hta] using this
      | fail =>
          cases hres : (markActionFailed a.id q).1 with
          | true => simpa [pushLoop, hta, hres] using ih (markActionFailed a.id q).2 r
          | false =>
              have h2 := ih (markActionFailed a.id q).2
                { r with failed := r.failed + 1,
                         errors := r.errors ++ [failedMsg a] }
              refine ⟨?_, ?_⟩
              · calc r.failed ≤ r.failed + 1 := Nat.le_succ _
                  _ ≤ _ := by simpa [pushLoop, hta, hres] using h2.1
              · intro m hm
                have : m ∈ r.errors ++ [failedMsg a] := List.mem_append_left _ hm
                simpa [pushLoop, hta, hres] using h2.2 m this
      | exn msg =>
          cases hres : (markActionFailed a.id q).1 with
          | true =>
              simpa [pushLoop, hta, hres] using
                ih (markActionFailed a.id q).2 { r with success := false }
          | false =>
              have h2 := ih (markActionFailed a.id q).2
                { r with success := false, failed := r.failed + 1,
                         errors := r.errors ++ [exnMsg a msg] }
              refine ⟨?_, ?_⟩
              · calc r.failed ≤ r.failed + 1 := Nat.le_succ _
                  _ ≤ _ := by simpa [pushLoop, hta, hres] using h2.1
              · intro m hm
                have : m ∈ r.errors ++ [exnMsg a msg] := List.mem_append_left _ hm
                simpa [pushLoop, hta, hres] using h2.2 m this

lemma find?_filter_of_imp {α : Type _} (l : List α) (p keep : α → Bool)
    (h : ∀ x, p x = true → keep x = true) :
    (l.filter keep).find? p = l.find? p := by
  induction l with
  | nil => rfl
  | cons x l ih =>
      by_cases hk : keep x = true
      · by_cases hp : p x = true
        · rw [List.filter_cons_of_pos hk, List.find?_cons_of_pos _ hp,
              List.find?_cons_of_pos _ hp]
        · rw [List.filter_cons_of_pos hk,
              List.find?_cons_of_neg _ (by simpa using hp),
              List.find?_cons_of_neg _ (by simpa using hp), ih]
      · have hp : ¬ p x = true := fun hpx => hk (h x hpx)
        rw [List.filter_cons_of_neg (by simpa using hk),
            List.find?_cons_of_neg _ (by simpa using hp), ih]

lemma find?_map_of_fix {α : Type _} (l : List α) (p : α → Bool) (f : α → α)
    (h : ∀ x, f x = x ∨ (p x = false ∧ p (f x) = false)) :
    (l.map f).find? p = l.find? p := by
  induction l with
  | nil => rfl
  | cons x l ih =>
      rcases h x with hx | ⟨h1, h2⟩
      · rw [List.map_cons, hx]
        by_cases hp : p x = true
        · rw [List.find?_cons_of_pos _ hp, List.find?_cons_of_pos _ hp]
        · rw [List.find?_cons_of_neg _ (by simpa using hp),
              List.find?_cons_of_neg _ (by simpa using hp), ih]
      · rw [List.map_cons,
            List.find?_cons_of_neg _ (by simp [h2]),
            List.find?_cons_of_neg _ (by simp [h1]), ih]

lemma find?_id_markActionComplete (q : List SyncAction) (bid cid : Nat)
    (h : cid ≠ bid) :
    (markActionComplete bid q).find? (fun x => x.id == cid)
      = q.find? (fun x => x.id == cid) := by
  unfold markActionComplete removeFromSyncQueue
  apply find?_filter_of_imp
  intro x hx
  have hxc : x.id = cid := by simpa using hx
  simp [hxc, bne_iff_ne, h]

lemma find?_id_markActionFailed (q : List SyncAction) (bid cid : Nat)
    (h : cid ≠ bid) :
    (markActionFailed bid q).2.find? (fun x => x.id == cid)
      = q.find? (fun x => x.id == cid) := by
  unfold markActionFailed
  cases hf : q.find? (fun a => a.id == bid) with
  | none => simp [hf]
  | some b =>
      by_cases hge : b.retryCount + 1 ≥ MAX_RETRIES
      · simp only [hf, hge, if_pos]
        unfold removeFromSyncQueue
        apply find?_filter_of_imp
        intro x hx
        have hxc : x.id = cid := by simpa using hx
        simp [hxc, bne_iff_ne, h]
      · simp only [hf, hge, if_neg, Bool.false_eq_true, not_false_eq_true]
        unfold updateSyncQueueItem
        apply find?_map_of_fix
        intro x
        by_cases hxb : (x.id == bid) = true
        · right
          have hxid : x.id = bid := by simpa using hxb
          have hbc : ¬ bid = cid := fun he => h he.symm
          constructor
          · simp [hxid, hbc]
          · simp [hxb, hxid, hbc]
        · left
          simp [hxb]

lemma find?_id_self_of_nodup (q : List SyncAction)
    (h : (q.map (fun a => a.id)).Nodup) :
    ∀ b ∈ q, q.find? (fun x => x.id == b.id) = some b := by
  induction q with
  | nil => simp
  | cons a q ih =>
      intro b hb
      rcases List.mem_cons.mp hb with rfl | hb2
      · exact List.find?_cons_of_pos _ (by simp)
      · have hnd := (by simpa using h :
          a.id ∉ q.map (fun x => x.id) ∧ (q.map (fun x => x.id)).Nodup)
        have hane : ¬ ((a.id == b.id) = true) := by
          intro he
          have heq : a.id = b.id := by simpa using he
          exact hnd.1 (heq ▸ List.mem_map_of_mem _ hb2)
        rw [List.find?_cons_of_neg _ (by simpa using hane)]
        exact ih hnd.2 b hb2

lemma pushLoop_exhausted (transmit : SyncAction → TransmitOutcome) :
    ∀ (rest : List SyncAction) (q : List SyncAction) (r : PushResult)
      (a : SyncAction), a ∈ rest →
    (rest.map (fun x => x.id)).Nodup →
    (∀ b ∈ rest, q.find? (fun x => x.id == b.id) = some b) →
    MAX_RETRIES ≤ a.retryCount + 1 →
    transmit a ≠ TransmitOutcome.ok →
    (r.failed + 1 ≤ (pushLoop transmit rest q r).1.failed
     ∧ (transmit a = TransmitOutcome.fail →
          failedMsg a ∈ (pushLoop transmit rest q r).1.errors)
     ∧ (∀ m, transmit a = TransmitOutcome.exn m →
          exnMsg a m ∈ (pushLoop transmit rest q r).1.errors)) := by
  intro rest
  induction rest with
  | nil => intro q r a ha; exact absurd ha (List.not_mem_nil a)
  | cons b rest ih =>
      intro q r a ha hnd hfind hmax hnok
      have hnd2 := (by simpa using hnd :
        b.id ∉ rest.map (fun x => x.id) ∧ (rest.map (fun x => x.id)).Nodup)
      rcases List.mem_cons.mp ha with rfl | ha2
      · have hfa : q.find? (fun x => x.id == a.id) = some a :=
          hfind a (List.mem_cons_self a rest)
        cases hta : transmit a with
        | ok => exact absurd hta hnok
        | fail =>
            have hmark : markActionFailed a.id q
                = (false, removeFromSyncQueue a.id q) := by
              unfold markActionFailed
              rw [hfa]
              simp only [ge_iff_le, hmax, if_pos]
            have hmono := pushLoop_mono transmit rest
              (removeFromSyncQueue a.id q)
              { r with failed := r.failed + 1,
                       errors := r.errors ++ [failedMsg a] }
            refine ⟨?_, ?_, ?_⟩
            · simpa [pushLoop, hta, hmark] using hmono.1
            · intro _
              have : failedMsg a ∈ r.errors ++ [failedMsg a] := by simp
              simpa [pushLoop, hta, hmark] using hmono.2 _ this
            · intro m hm
              exact absurd hm (by simp)
        | exn msg =>
            have hmark : markActionFailed a.id q
                = (false, removeFromSyncQueue a.id q) := by
              unfold markActionFailed
              rw [hfa]
              simp only [ge_iff_le, hmax, if_pos]
            have hmono := pushLoop_mono transmit rest
              (removeFromSyncQueue a.id q)
              { r with success := false, failed := r.failed + 1,
                       errors := r.errors ++ [exnMsg a msg] }
            refine ⟨?_, ?_, ?_⟩
            · simpa [pushLoop, hta, hmark] using hmono.1
            · intro hm
              exact absurd hm (by simp)
            · intro m hm
              have hmsg : msg = m := by injection hm
              subst hmsg
              have : exnMsg a msg ∈ r.errors ++ [exnMsg a msg] := by simp
              simpa [pushLoop, hta, hmark] using hmono.2 _ this
      · have haid : a.id ≠ b.id := by
          intro he
          exact hnd2.1 (he ▸ List.mem_map_of_mem _ ha2)
        have hpres : ∀ (q2 : List SyncAction),
            (∀ c ∈ rest, q.find? (fun x => x.id == c.id) = some c) →
            True := fun _ _ => trivial
        have hfind2fail : ∀ c ∈ rest,
            (markActionFailed b.id q).2.find? (fun x => x.id == c.id)
              = some c := by
          intro c hc
          have hcb : c.id ≠ b.id := by
            intro he
            exact hnd2.1 (he ▸ List.mem_map_of_mem _ hc)
          rw [find?_id_markActionFailed q b.id c.id hcb]
          exact hfind c (List.mem_cons_of_mem b hc)
        have hfind2ok : ∀ c ∈ rest,
            (markActionComplete b.id q).find? (fun x => x.id == c.id)
              = some c := by
          intro c hc
          have hcb : c.id ≠ b.id := by
            intro he
            exact hnd2.1 (he ▸ List.mem_map_of_mem _ hc)
          rw [find?_id_markActionComplete q b.id c.id hcb]
          exact hfind c (List.mem_cons_of_mem b hc)
        cases htb : transmit b with
        | ok =>
            have := ih (markActionComplete b.id q)
              { r with pushed := r.pushed + 1 } a ha2 hnd2.2 hfind2ok hmax hnok
            simpa [pushLoop, htb] using this
        | fail =>
            cases hres : (markActionFailed b.id q).1 with
            | true =>
                have := ih (markActionFailed b.id q).2 r a ha2 hnd2.2
                  hfind2fail hmax hnok
                simpa [pushLoop, htb, hres] using this
            | false =>
                have := ih (markActionFailed b.id q).2
                  { r with failed := r.failed + 1,
                           errors := r.errors ++ [failedMsg b] }
                  a ha2 hnd2.2 hfind2fail hmax hnok
                refine ⟨?_, ?_, ?_⟩
                · calc r.failed + 1 ≤ r.failed + 1 + 1 := Nat.le_succ _
                    _ ≤ _ := by simpa [pushLoop, htb, hres] using this.1
                · intro hm
                  simpa [pushLoop, htb, hres] using this.2.1 hm
                · intro m hm
                  simpa [pushLoop, htb, hres] using this.2.2 m hm
        | exn msg =>
            cases hres : (markActionFailed b.id q).1 with
            | true =>
                have := ih (markActionFailed b.id q).2
                  { r with success := false } a ha2 hnd2.2 hfind2fail hmax hnok
                simpa [pushLoop, htb, hres] using this
            | false =>
                have := ih (markActionFailed b.id q).2
                  { r with success := false, failed := r.failed + 1,
                           errors := r.errors ++ [exnMsg b msg] }
                  a ha2 hnd2.2 hfind2fail hmax hnok
                refine ⟨?_, ?_, ?_⟩
                · calc r.failed + 1 ≤ r.failed + 1 + 1 := Nat.le_succ _
                    _ ≤ _ := by simpa [pushLoop, htb, hres] using this.1
                · intro hm
                  simpa [pushLoop, htb, hres] using this.2.1 hm
                · intro m hm
                  simpa [pushLoop, htb, hres] using this.2.2 m hm

/-- C2 (amended): the overall success flag of a push cycle ends up false
exactly when some action of the snapshot threw an exception during
transmit; a transmit that merely reports failure leaves success unchanged;
in either failing mode, an action whose retries are exhausted (retry count
reaching the cap of 3 on this attempt) increments failed and appends the
error string naming its table and entity. -/
theorem push_failure_reporting (transmit : SyncAction → TransmitOutcome)
    (q : List SyncAction) (hids : (q.map (fun a => a.id)).Nodup) :
    (((pushChanges transmit q).1.success = false) ↔
      ∃ a ∈ q, ∃ m, transmit a = TransmitOutcome.exn m)
    ∧ ∀ a ∈ q, MAX_RETRIES ≤ a.retryCount + 1 →
        transmit a ≠ TransmitOutcome.ok →
        1 ≤ (pushChanges transmit q).1.failed
        ∧ (transmit a = TransmitOutcome.fail →
            failedMsg a ∈ (pushChanges transmit q).1.errors)
        ∧ (∀ m, transmit a = TransmitOutcome.exn m →
            exnMsg a m ∈ (pushChanges transmit q).1.errors) := by
  constructor
  · have h := pushLoop_success_false_iff transmit q q
      { success := true, pushed := 0, failed := 0, errors := [] }
    simpa [pushChanges, getPendingActions] using h
  · intro a ha hmax hnok
    have h := pushLoop_exhausted transmit q q
      { success := true, pushed := 0, failed := 0, errors := [] } a ha hids
      (find?_id_self_of_nodup q hids) hmax hnok
    simpa [pushChanges, getPendingActions] using h

/-- Sample action with two retries already recorded, used to exercise the
push error-reporting theorems at a concrete input. -/
def c2SampleAction : SyncAction :=
  { id := 1, table := SyncTable.expenses, operation := SyncOperation.update,
    entityId := "e1", payload := [], timestamp := 0, retryCount := 2 }

theorem push_failure_reporting_witness :
    ((pushChanges (fun _ => TransmitOutcome.exn "boom")
        [c2SampleAction]).1.success = false)
    ∧ 1 ≤ (pushChanges (fun _ => TransmitOutcome.exn "boom")
        [c2SampleAction]).1.failed
    ∧ exnMsg c2SampleAction "boom" ∈ (pushChanges
        (fun _ => TransmitOutcome.exn "boom") [c2SampleAction]).1.errors := by
  have h := push_failure_reporting (fun _ => TransmitOutcome.exn "boom")
    [c2SampleAction] (by decide)
  have h2 := h.2 c2SampleAction (by simp) (by decide) (by decide)
  exact ⟨h.1.mpr ⟨c2SampleAction, by simp, "boom", rfl⟩, h2.1,
    h2.2.2 "boom" rfl⟩

/-- C2 counterexample: a push cycle in which the only action's transmit
reports failure (returning false, without throwing) and exhausts its
retries ends with success still true, contradicting the claim that any
transmit failure makes the returned success flag false. -/
theorem push_reported_failure_keeps_success :
    (pushChanges (fun _ => TransmitOutcome.fail) [c2SampleAction]).1
      = { success := true, pushed := 0, failed := 1,
          errors := [failedMsg c2SampleAction] } := by
  rfl

/-! ### Local entities, remote rows, pull pipeline and orchestrator -/

/-- Per-entity sync status (type SyncStatus in types/index.ts). -/
inductive SyncStatus where
  | pending
  | synced
  | error
deriving DecidableEq, Repr

/-- Per-entity sync annotation (interface SyncMetadata in types/index.ts). -/
structure SyncMetadata where
  syncedAt : Option Nat
  syncStatus : SyncStatus
  serverId : Option Nat
deriving DecidableEq, Repr

/-- Local expense record with sync fields (interface SyncableExpense).  The
source fields _sync and _deleted are modelled as sync and deleted. -/
structure SyncableExpense where
  id : String
  amount : Int
  currency : String
  category : String
  description : String
  date : String
  isRecurring : Bool
  recurringFrequency : Option String
  createdAt : Nat
  updatedAt : Nat
  deleted : Bool
  sync : Option SyncMetadata
deriving DecidableEq, Repr

/-- Local category record with sync fields (interface SyncableCategory). -/
structure SyncableCategory where
  id : String
  name : String
  icon : Option String
  color : Option String
  isDefault : Bool
  isHidden : Bool
  order : Nat
  deleted : Bool
  sync : Option SyncMetadata
deriving DecidableEq, Repr

/-- Local preferences record (interface UserPreferences). -/
structure UserPreferences where
  id : String
  dateFormat : String
  defaultCurrency : String
  theme : String
deriving DecidableEq, Repr

/-- A row of the remote expenses table (section 6 of the design). -/
structure RemoteExpenseRow where
  id : Nat
  user_id : String
  local_id : String
  amount : Int
  currency : String
  category : String
  description : Option String
  date : String
  is_recurring : Bool
  recurring_frequency : Option String
  created_at : Nat
  updated_at : Nat
  deleted_at : Option Nat
deriving DecidableEq, Repr

/-- A row of the remote categories table. -/
structure RemoteCategoryRow where
  id : Nat
  user_id : String
  local_id : String
  name : String
  icon : Option String
  color : Option String
  is_default : Bool
  is_hidden : Bool
  sort_order : Nat
  created_at : Nat
  updated_at : Nat
  deleted_at : Option Nat
deriving DecidableEq, Repr

/-- A row of the remote user_preferences table. -/
structure RemotePrefsRow where
  id : Nat
  user_id : String
  date_format : String
  default_currency : String
  theme : String
  created_at : Nat
  updated_at : Nat
deriving DecidableEq, Repr

/-- The remote query of pullExpenses (pull.ts lines 85-92): rows owned by
the user, and strictly newer than lastSyncAt when a checkpoint exists. -/
def expensesQuery (remote : List RemoteExpenseRow) (userId : String)
    (lastSyncAt : Option Nat) : List RemoteExpenseRow :=
  let base := remote.filter (fun r => r.user_id == userId)
  match lastSyncAt with
  | some t => base.filter (fun r => t < r.updated_at)
  | none => base

/-- The remote query of pullCategories (pull.ts lines 150-157). -/
def categoriesQuery (remote : List RemoteCategoryRow) (userId : String)
    (lastSyncAt : Option Nat) : List RemoteCategoryRow :=
  let base := remote.filter (fun r => r.user_id == userId)
  match lastSyncAt with
  | some t => base.filter (fun r => t < r.updated_at)
  | none => base

/-- The remote query of pullPreferences (pull.ts lines 213-217): filtered by
the owning user only; no updated_at condition is applied. -/
def preferencesQuery (remote : List RemotePrefsRow) (userId : String) :
    List RemotePrefsRow :=
  remote.filter (fun r => r.user_id == userId)

/-- The local expense record built from a pulled remote row (pull.ts lines
109-126). -/
def expenseFromRemote (r : RemoteExpenseRow) (now : Nat) : SyncableExpense :=
  { id := r.local_id
    amount := r.amount
    currency := r.currency
    category := r.category
    description := r.description.getD ""
    date := r.date
    isRecurring := r.is_recurring
    recurringFrequency := r.recurring_frequency.filter (fun s => s != "")
    createdAt := r.created_at
    updatedAt := r.updated_at
    deleted := r.deleted_at.isSome
    sync := some { syncedAt := some now, syncStatus := SyncStatus.synced,
                   serverId := some r.id } }

/-- db.expenses.get by primary key. -/
def dbGetExpense (db : List SyncableExpense) (i : String) :
    Option SyncableExpense :=
  db.find? (fun e => e.id == i)

/-- db.expenses.update with the full record (every field supplied). -/
def dbPutExpense (db : List SyncableExpense) (i : String)
    (v : SyncableExpense) : List SyncableExpense :=
  db.map (fun e => if e.id == i then v else e)

/-- Per-row body of the pullExpenses loop (pull.ts lines 105-140): the
remote row overwrites the local record when the server timestamp is at
least the local one; a missing local record is inserted. -/
def applyRemoteExpense (db : List SyncableExpense) (r : RemoteExpenseRow)
    (now : Nat) : List SyncableExpense :=
  let expenseData := expenseFromRemote r now
  match dbGetExpense db r.local_id with
  | some existingExpense =>
      if existingExpense.updatedAt ≤ r.updated_at then
        dbPutExpense db r.local_id expenseData
      else
        db
  | none => db ++ [expenseData]

/-- Result record of one table pull. -/
structure TablePullResult where
  count : Nat
  error : Option String
deriving DecidableEq, Repr

/-- pullExpenses (pull.ts lines 80-143).  The err argument models the remote
query returning an error object instead of data. -/
def pullExpenses (remote : List RemoteExpenseRow) (err : Option String)
    (userId : String) (lastSyncAt : Option Nat) (db : List SyncableExpense)
    (now : Nat) : TablePullResult × List SyncableExpense :=
  match err with
  | some m => ({ count := 0, error := some ("Error pulling expenses: " ++ m) }, db)
  | none =>
      let data := expensesQuery remote userId lastSyncAt
      ({ count := data.length, error := none },
       data.foldl (fun d r => applyRemoteExpense d r now) db)

/-- The local category record built from a pulled remote row (pull.ts lines
173-187). -/
def categoryFromRemote (r : RemoteCategoryRow) (now : Nat) :
    SyncableCategory :=
  { id := r.local_id
    name := r.name
    icon := r.icon.filter (fun s => s != "")
    color := r.color.filter (fun s => s != "")
    isDefault := r.is_default
    isHidden := r.is_hidden
    order := r.sort_order
    deleted := r.deleted_at.isSome
    sync := some { syncedAt := some now, syncStatus := SyncStatus.synced,
                   serverId := some r.id } }

/-- db.categories.get by primary key. -/
def dbGetCategory (db : List SyncableCategory) (i : String) :
    Option SyncableCategory :=
  db.find? (fun c => c.id == i)

/-- db.categories.update with the full record. -/
def dbPutCategory (db : List SyncableCategory) (i : String)
    (v : SyncableCategory) : List SyncableCategory :=
  db.map (fun c => if c.id == i then v else c)

/-- Per-row body of the pullCategories loop (pull.ts lines 169-199): a local
record is overwritten only when it has no sync annotation or its status is
synced (no pending local edit). -/
def applyRemoteCategory (db : List SyncableCategory) (r : RemoteCategoryRow)
    (now : Nat) : List SyncableCategory :=
  let categoryData := categoryFromRemote r now
  match dbGetCategory db r.local_id with
  | some existingCategory =>
      if (match existingCategory.sync with
          | none => true
          | some s => s.syncStatus == SyncStatus.synced) then
        dbPutCategory db r.local_id categoryData
      else
        db
  | none => db ++ [categoryData]

/-- pullCategories (pull.ts lines 145-202). -/
def pullCategories (remote : List RemoteCategoryRow) (err : Option String)
    (userId : String) (lastSyncAt : Option Nat) (db : List SyncableCategory)
    (now : Nat) : TablePullResult × List SyncableCategory :=
  match err with
  | some m => ({ count := 0, error := some ("Error pulling categories: " ++ m) }, db)
  | none =>
      let data := categoriesQuery remote userId lastSyncAt
      ({ count := data.length, error := none },
       data.foldl (fun d r => applyRemoteCategory d r now) db)

/-- Result record of the preferences pull. -/
structure PrefsPullResult where
  success : Bool
  error : Option String
deriving DecidableEq, Repr

/-- pullPreferences (pull.ts lines 209-239): fetches the single preferences
row of the user; a PGRST116 (no row) error is success; a returned row
always overwrites the local singleton.  The err argument carries a remote
error as (code, message). -/
def pullPreferences (remote : List RemotePrefsRow)
    (err : Option (String × String)) (userId : String)
    (prefs : List UserPreferences) : PrefsPullResult × List UserPreferences :=
  match err with
  | some (code, msg) =>
      if code == "PGRST116" then ({ success := true, error := none }, prefs)
      else ({ success := false,
              error := some ("Error pulling preferences: " ++ msg) }, prefs)
  | none =>
      match (preferencesQuery remote userId).head? with
      | none => ({ success := true, error := none }, prefs)
      | some d =>
          ({ success := true, error := none },
           prefs.map (fun p =>
             if p.id == "user-preferences" then
               { p with dateFormat := d.date_format,
                        defaultCurrency := d.default_currency,
                        theme := d.theme }
             else p))

/-- Global sync metadata singleton (syncMeta table of lib/db). -/
structure SyncMeta where
  lastSyncAt : Option Nat
  userId : Option String
deriving DecidableEq, Repr

/-- A partial update to the sync metadata, as passed to updateSyncMeta. -/
structure SyncMetaPatch where
  lastSyncAt : Option (Option Nat) := none
  userId : Option (Option String) := none
deriving DecidableEq, Repr

/-- updateSyncMeta from lib/db: update the existing record, or create it
with null defaults merged with the update. -/
def updateSyncMeta (updates : SyncMetaPatch) (m : Option SyncMeta) :
    SyncMeta :=
  match m with
  | some existing =>
      { lastSyncAt := updates.lastSyncAt.getD existing.lastSyncAt
        userId := updates.userId.getD existing.userId }
  | none =>
      { lastSyncAt := updates.lastSyncAt.getD none
        userId := updates.userId.getD none }

/-- Counts reported by pullChanges. -/
structure PulledCounts where
  expenses : Nat
  categories : Nat
  preferences : Bool
deriving DecidableEq, Repr

/-- Result record of pullChanges. -/
structure PullResult where
  success : Bool
  pulled : PulledCounts
  errors : List String
deriving DecidableEq, Repr

/-- The whole local store (class LogExDatabase in lib/db). -/
structure LocalDb where
  expenses : List SyncableExpense
  categories : List SyncableCategory
  preferences : List UserPreferences
  syncQueue : List SyncAction
  syncMeta : Option SyncMeta
deriving DecidableEq, Repr

/-- The remote store (the three tenant-scoped tables read by pull). -/
structure RemoteDb where
  expenses : List RemoteExpenseRow
  categories : List RemoteCategoryRow
  preferences : List RemotePrefsRow
deriving DecidableEq, Repr

/-- Error oracle for the three remote reads of one pull cycle. -/
structure RemoteErrors where
  expensesErr : Option String := none
  categoriesErr : Option String := none
  prefsErr : Option (String × String) := none
deriving DecidableEq, Repr

/-- pullChanges (pull.ts lines 21-73): pull the three tables, accumulate
errors, and advance lastSyncAt to now only when everything succeeded. -/
def pullChanges (remote : RemoteDb) (re : RemoteErrors) (userId : String)
    (db : LocalDb) (now : Nat) : PullResult × LocalDb :=
  let lastSyncAt := db.syncMeta.bind SyncMeta.lastSyncAt
  let er := pullExpenses remote.expenses re.expensesErr userId lastSyncAt
    db.expenses now
  let cr := pullCategories remote.categories re.categoriesErr userId
    lastSyncAt db.categories now
  let pr := pullPreferences remote.preferences re.prefsErr userId
    db.preferences
  let success := er.1.error.isNone && cr.1.error.isNone && pr.1.error.isNone
  let meta2 :=
    if success then
      some (updateSyncMeta
        { lastSyncAt := some (some now), userId := some (some userId) }
        db.syncMeta)
    else db.syncMeta
  ({ success := success
     pulled := { expenses := er.1.count, categories := cr.1.count,
                 preferences := pr.1.success }
     errors := er.1.error.toList ++ cr.1.error.toList ++ pr.1.error.toList },
   { db with expenses := er.2, categories := cr.2, preferences := pr.2,
             syncMeta := meta2 })

/-- Result record of the orchestrating sync (lib/sync/index.ts). -/
structure SyncResult where
  success : Bool
  pushed : Nat
  pulled : PulledCounts
  errors : List String
deriving DecidableEq, Repr

/-- sync from lib/sync/index.ts: push, then pull unconditionally, aggregate
success and errors from both phases. -/
def sync (transmit : SyncAction → TransmitOutcome) (remote : RemoteDb)
    (re : RemoteErrors) (userId : String) (db : LocalDb) (now : Nat) :
    SyncResult × LocalDb :=
  let pushRes := pushChanges transmit db.syncQueue
  let db1 := { db with syncQueue := pushRes.2 }
  let pullRes := pullChanges remote re userId db1 now
  ({ success := pushRes.1.success && pullRes.1.success
     pushed := pushRes.1.pushed
     pulled := pullRes.1.pulled
     errors := (if pushRes.1.success then [] else pushRes.1.errors)
       ++ (if pullRes.1.success then [] else pullRes.1.errors) },
   pullRes.2)

/-- The annotation written by markAllAsPendingSync: the object literal with
only syncStatus pending (serverId and syncedAt left undefined). -/
def pendingOnly : SyncMetadata :=
  { syncedAt := none, syncStatus := SyncStatus.pending, serverId := none }

/-- markAllAsPendingSync from lib/db (lines 486-507): entities without a
server id are re-marked pending, default categories excluded. -/
def markAllAsPendingSync (db : LocalDb) : LocalDb :=
  { db with
    expenses := db.expenses.map (fun e =>
      if (e.sync.bind SyncMetadata.serverId).isNone then
        { e with sync := some pendingOnly }
      else e)
    categories := db.categories.map (fun c =>
      if (c.sync.bind SyncMetadata.serverId).isNone && !c.isDefault then
        { c with sync := some pendingOnly }
      else c) }

/-- initializeSync from lib/sync/index.ts (lines 58-64): mark local data
pending, then record the user id in the sync metadata. -/
def initializeSync (userId : String) (db : LocalDb) : LocalDb :=
  let db1 := markAllAsPendingSync db
  { db1 with syncMeta := some (updateSyncMeta
      { userId := some (some userId) } db1.syncMeta) }

/-- State visible to the useSync hook: the in-flight flag plus the stores a
sync cycle touches. -/
structure HookState where
  isSyncing : Bool
  db : LocalDb
deriving DecidableEq, Repr

/-- triggerSync from hooks/useSync.ts (lines 49-79): refuse when no user,
offline, or a cycle is already in flight; otherwise run one sync cycle,
clearing the flag at the end. -/
def triggerSync (transmit : SyncAction → TransmitOutcome) (remote : RemoteDb)
    (re : RemoteErrors) (userId : Option String) (isOnline : Bool)
    (st : HookState) (now : Nat) : HookState :=
  match userId with
  | none => st
  | some u =>
      if !isOnline || st.isSyncing then st
      else
        { st with isSyncing := false
                  db := (sync transmit remote re u st.db now).2 }

lemma pullChanges_syncMeta (remote : RemoteDb) (re : RemoteErrors)
    (userId : String) (db : LocalDb) (now : Nat) :
    (pullChanges remote re userId db now).2.syncMeta
      = if (pullChanges remote re userId db now).1.success then
          some (updateSyncMeta
            { lastSyncAt := some (some now), userId := some (some userId) }
            db.syncMeta)
        else db.syncMeta := rfl

lemma updateSyncMeta_now_lastSyncAt (userId : String) (now : Nat)
    (m : Option SyncMeta) :
    (updateSyncMeta
      { lastSyncAt := some (some now), userId := some (some userId) }
      m).lastSyncAt = some now := by
  cases m <;> rfl

/-- C3 (amended): after one sync cycle the stored lastSyncAt equals now
when the pull phase succeeded and is unchanged otherwise — the push phase
outcome does not gate the advance; whenever it does change it moves to a
timestamp at least as large as any previous value not exceeding now. -/
theorem last_sync_checkpoint (transmit : SyncAction → TransmitOutcome)
    (remote : RemoteDb) (re : RemoteErrors) (userId : String) (db : LocalDb)
    (now : Nat) :
    ((sync transmit remote re userId db now).2.syncMeta.bind
        SyncMeta.lastSyncAt
      = if (pullChanges remote re userId
              { db with syncQueue := (pushChanges transmit db.syncQueue).2 }
              now).1.success
        then some now
        else db.syncMeta.bind SyncMeta.lastSyncAt)
    ∧ (∀ t0 t1, db.syncMeta.bind SyncMeta.lastSyncAt = some t0 → t0 ≤ now →
        (sync transmit remote re userId db now).2.syncMeta.bind
          SyncMeta.lastSyncAt = some t1 → t0 ≤ t1) := by
  have hsync2 : (sync transmit remote re userId db now).2
      = (pullChanges remote re userId
          { db with syncQueue := (pushChanges transmit db.syncQueue).2 }
          now).2 := rfl
  have hmeta := pullChanges_syncMeta remote re userId
    { db with syncQueue := (pushChanges transmit db.syncQueue).2 } now
  have hfst : ((sync transmit remote re userId db now).2.syncMeta.bind
        SyncMeta.lastSyncAt
      = if (pullChanges remote re userId
              { db with syncQueue := (pushChanges transmit db.syncQueue).2 }
              now).1.success
        then some now
        else db.syncMeta.bind SyncMeta.lastSyncAt) := by
    rw [hsync2, hmeta]
    split
    · simp [updateSyncMeta_now_lastSyncAt]
    · rfl
  refine ⟨hfst, ?_⟩
  intro t0 t1 h0 hle h1
  rw [hfst] at h1
  by_cases hs : (pullChanges remote re userId
      { db with syncQueue := (pushChanges transmit db.syncQueue).2 }
      now).1.success = true
  · rw [if_pos hs] at h1
    have : now = t1 := by injection h1
    omega
  · rw [if_neg hs] at h1
    rw [h0] at h1
    have : t0 = t1 := by injection h1
    omega

/-- The empty remote store, used to instantiate orchestrator theorems. -/
def emptyRemote : RemoteDb :=
  { expenses := [], categories := [], preferences := [] }

/-- No remote errors in any of the three pulls. -/
def noRemoteErrors : RemoteErrors :=
  { expensesErr := none, categoriesErr := none, prefsErr := none }

/-- Local store with an already-recorded checkpoint, for the checkpoint
witness. -/
def c3SampleDb : LocalDb :=
  { expenses := [], categories := [], preferences := [], syncQueue := [],
    syncMeta := some { lastSyncAt := some 2, userId := some "u" } }

theorem last_sync_checkpoint_witness :
    (2 : Nat) ≤ 5
    ∧ (sync (fun _ => TransmitOutcome.ok) emptyRemote noRemoteErrors "u"
        c3SampleDb 5).2.syncMeta.bind SyncMeta.lastSyncAt = some 5 := by
  refine ⟨?_, by rfl⟩
  exact (last_sync_checkpoint (fun _ => TransmitOutcome.ok) emptyRemote
    noRemoteErrors "u" c3SampleDb 5).2 2 5 rfl (by decide) (by rfl)

/-- A still-retryable queued create action. -/
def c3QueuedAction : SyncAction :=
  { id := 9, table := SyncTable.expenses,
    operation := SyncOperation.create, entityId := "e9", payload := [],
    timestamp := 0, retryCount := 0 }

/-- Local store with one still-retryable queued action and a checkpoint. -/
def c3FailDb : LocalDb :=
  { expenses := [], categories := [], preferences := [],
    syncQueue := [c3QueuedAction],
    syncMeta := some { lastSyncAt := some 0, userId := some "u" } }

/-- C3 counterexample: a cycle whose push phase fails (transmit throws,
overall success is false) while the pull phase succeeds still advances the
stored lastSyncAt from 0 to 5, contradicting the claim that it changes only
when both phases completed without error. -/
theorem last_sync_advances_despite_push_failure :
    ((sync (fun _ => TransmitOutcome.exn "network down") emptyRemote
        noRemoteErrors "u" c3FailDb 5).1.success = false)
    ∧ ((sync (fun _ => TransmitOutcome.exn "network down") emptyRemote
        noRemoteErrors "u" c3FailDb 5).2.syncMeta.bind SyncMeta.lastSyncAt
      = some 5)
    ∧ (c3FailDb.syncMeta.bind SyncMeta.lastSyncAt = some 0) :=
  ⟨by decide, by decide, by decide⟩

/-- The empty local store. -/
def emptyLocalDb : LocalDb :=
  { expenses := [], categories := [], preferences := [], syncQueue := [],
    syncMeta := none }

/-- A queued create action awaiting its first transmit. -/
def c4QueuedAction : SyncAction :=
  { id := 3, table := SyncTable.expenses,
    operation := SyncOperation.create, entityId := "e3", payload := [],
    timestamp := 0, retryCount := 0 }

/-- Local store with one queued action and no sync metadata yet. -/
def c4SampleDb : LocalDb :=
  { emptyLocalDb with syncQueue := [c4QueuedAction] }

/-- Modelled from the claim (spec section 4.5 initializeSync): mark all
pre-existing local-only entities pending, then perform one immediate full
sync (push then pull) for that user. -/
def initializeSyncPerClaim (transmit : SyncAction → TransmitOutcome)
    (remote : RemoteDb) (re : RemoteErrors) (userId : String) (db : LocalDb)
    (now : Nat) : LocalDb :=
  (sync transmit remote re userId (initializeSync userId db) now).2

/-- C4 counterexample: on a store holding one queued action, initializeSync
leaves the queue untouched and the checkpoint unset, while the behaviour
the claim describes (mark pending then one immediate sync, here with every
transmit succeeding) would drain the queue and set the checkpoint — so
initializeSync performs no immediate sync. -/
theorem init_sync_performs_no_immediate_sync :
    ((initializeSync "u" c4SampleDb).syncQueue = [c4QueuedAction])
    ∧ ((initializeSync "u" c4SampleDb).syncMeta.bind SyncMeta.lastSyncAt
      = none)
    ∧ ((initializeSyncPerClaim (fun _ => TransmitOutcome.ok) emptyRemote
        noRemoteErrors "u" c4SampleDb 5).syncQueue = [])
    ∧ ((initializeSyncPerClaim (fun _ => TransmitOutcome.ok) emptyRemote
        noRemoteErrors "u" c4SampleDb 5).syncMeta.bind SyncMeta.lastSyncAt
      = some 5) :=
  ⟨by decide, by decide, by decide, by decide⟩

lemma forall2_map_self {α : Type _} (l : List α) (f : α → α)
    (R : α → α → Prop) (h : ∀ a ∈ l, R a (f a)) :
    List.Forall₂ R l (l.map f) := by
  induction l with
  | nil => exact List.Forall₂.nil
  | cons a l ih =>
      exact List.Forall₂.cons (h a (by simp))
        (ih (fun b hb => h b (by simp [hb])))

/-- C4 (amended): initializeSync marks pending every expense lacking a
server id and every non-default category lacking a server id, leaving all
other records, the queue, the preferences and the stored checkpoint
untouched, and records the user id in the sync metadata; it performs no
push or pull itself — the immediate sync is issued separately by its
caller (the initialize callback of useSync). -/
theorem init_sync_marks_pending_only (userId : String) (db : LocalDb) :
    ((initializeSync userId db).syncQueue = db.syncQueue)
    ∧ ((initializeSync userId db).preferences = db.preferences)
    ∧ ((initializeSync userId db).syncMeta.bind SyncMeta.lastSyncAt
        = db.syncMeta.bind SyncMeta.lastSyncAt)
    ∧ ((initializeSync userId db).syncMeta.map SyncMeta.userId
        = some (some userId))
    ∧ List.Forall₂ (fun e e2 =>
        (e.sync.bind SyncMetadata.serverId = none →
            e2 = { e with sync := some pendingOnly })
        ∧ (e.sync.bind SyncMetadata.serverId ≠ none → e2 = e))
        db.expenses (initializeSync userId db).expenses
    ∧ List.Forall₂ (fun c c2 =>
        (c.sync.bind SyncMetadata.serverId = none ∧ c.isDefault = false →
            c2 = { c with sync := some pendingOnly })
        ∧ (c.sync.bind SyncMetadata.serverId ≠ none ∨ c.isDefault = true →
            c2 = c))
        db.categories (initializeSync userId db).categories := by
  refine ⟨rfl, rfl, ?_, ?_, ?_, ?_⟩
  · cases hm : db.syncMeta <;>
      simp [initializeSync, markAllAsPendingSync, updateSyncMeta, hm]
  · cases hm : db.syncMeta <;>
      simp [initializeSync, markAllAsPendingSync, updateSyncMeta, hm]
  · show List.Forall₂ _ db.expenses (db.expenses.map _)
    apply forall2_map_self
    intro e he
    constructor
    · intro hnone
      simp [hnone]
    · intro hne
      cases hx : e.sync.bind SyncMetadata.serverId with
      | none => exact absurd hx hne
      | some v => simp [hx]
  · show List.Forall₂ _ db.categories (db.categories.map _)
    apply forall2_map_self
    intro c hc
    constructor
    · intro hcond
      simp [hcond.1, hcond.2]
    · intro hcond
      rcases hcond with hne | hdef
      · cases hx : c.sync.bind SyncMetadata.serverId with
        | none => exact absurd hx hne
        | some v => simp [hx]
      · simp [hdef]

theorem init_sync_marks_pending_only_witness :
    (initializeSync "u" c4SampleDb).syncQueue = c4SampleDb.syncQueue :=
  (init_sync_marks_pending_only "u" c4SampleDb).1

/-- C6: in the expense pull loop, a remote row whose local record exists
overwrites it exactly when the remote updated_at is at least the local
updatedAt (a strictly older remote row leaves the local record unchanged),
a remote row with no local record is appended as a new record whose sync
status is synced, and pullExpenses applies this per-row rule to every row
returned by the incremental query. -/
theorem pull_expense_last_write_wins (r : RemoteExpenseRow)
    (db : List SyncableExpense) (now : Nat) (l : SyncableExpense)
    (userId : String) (lastSyncAt : Option Nat)
    (rows : List RemoteExpenseRow) :
    (dbGetExpense db r.local_id = some l →
      applyRemoteExpense db r now
        = if l.updatedAt ≤ r.updated_at
          then dbPutExpense db r.local_id (expenseFromRemote r now)
          else db)
    ∧ (dbGetExpense db r.local_id = none →
        applyRemoteExpense db r now = db ++ [expenseFromRemote r now])
    ∧ ((expenseFromRemote r now).sync
        = some { syncedAt := some now, syncStatus := SyncStatus.synced, serverId := some r.id })
    ∧ ((pullExpenses rows none userId lastSyncAt db now).2
        = (expensesQuery rows userId lastSyncAt).foldl
            (fun d row => applyRemoteExpense d row now) db) := by
  refine ⟨?_, ?_, rfl, rfl⟩
  · intro h
    simp [applyRemoteExpense, h]
  · intro h
    simp [applyRemoteExpense, h]

/-- A remote expense row newer than the local copy. -/
def c6RemoteRow : RemoteExpenseRow :=
  { id := 11, user_id := "u", local_id := "e1", amount := 500,
    currency := "INR", category := "food", description := some "lunch",
    date := "2025-01-01", is_recurring := false,
    recurring_frequency := none, created_at := 1, updated_at := 10,
    deleted_at := none }

/-- A stale local expense for the same local id. -/
def c6LocalOld : SyncableExpense :=
  { id := "e1", amount := 400, currency := "INR", category := "food",
    description := "", date := "2025-01-01", isRecurring := false,
    recurringFrequency := none, createdAt := 1, updatedAt := 4,
    deleted := false, sync := none }

theorem pull_expense_last_write_wins_witness :
    (applyRemoteExpense [c6LocalOld] c6RemoteRow 20
      = dbPutExpense [c6LocalOld] c6RemoteRow.local_id
          (expenseFromRemote c6RemoteRow 20))
    ∧ (applyRemoteExpense [] c6RemoteRow 20
      = [] ++ [expenseFromRemote c6RemoteRow 20]) := by
  constructor
  · have h1 := (pull_expense_last_write_wins c6RemoteRow [c6LocalOld] 20
      c6LocalOld "u" none []).1 (by decide)
    simpa using h1
  · exact (pull_expense_last_write_wins c6RemoteRow [] 20 c6LocalOld "u"
      none []).2.1 (by decide)

/-- C7: a sync request arriving through triggerSync while a cycle is
already in flight (the isSyncing flag is up) is a complete no-op — the
hook state, local store, and queue are all left untouched, no push or pull
runs — and the caller still observes the syncing-in-progress flag. -/
theorem trigger_sync_reentrancy_guard
    (transmit : SyncAction → TransmitOutcome) (remote : RemoteDb)
    (re : RemoteErrors) (userId : Option String) (isOnline : Bool)
    (st : HookState) (now : Nat) (h : st.isSyncing = true) :
    triggerSync transmit remote re userId isOnline st now = st
    ∧ (triggerSync transmit remote re userId isOnline st now).isSyncing
      = true := by
  cases userId with
  | none => exact ⟨rfl, h⟩
  | some u =>
      have heq : triggerSync transmit remote re (some u) isOnline st now
          = st := by
        simp [triggerSync, h]
      exact ⟨heq, by rw [heq]; exact h⟩

theorem trigger_sync_reentrancy_guard_witness :
    triggerSync (fun _ => TransmitOutcome.ok) emptyRemote noRemoteErrors
      (some "u") true { isSyncing := true, db := c4SampleDb } 5
      = { isSyncing := true, db := c4SampleDb } :=
  (trigger_sync_reentrancy_guard (fun _ => TransmitOutcome.ok) emptyRemote
    noRemoteErrors (some "u") true { isSyncing := true, db := c4SampleDb } 5
    rfl).1

/-- C8 (amended): the expense and category pulls are restricted to rows of
the owning user and, when a checkpoint exists, to rows with updated_at
strictly greater than it; the preferences pull is restricted to the owning
user only and applies no checkpoint condition. -/
theorem pull_query_filters (re : List RemoteExpenseRow)
    (rc : List RemoteCategoryRow) (rp : List RemotePrefsRow) (u : String)
    (ls : Option Nat) (r : RemoteExpenseRow) (c : RemoteCategoryRow)
    (p : RemotePrefsRow) :
    (r ∈ expensesQuery re u ls ↔
      r ∈ re ∧ r.user_id = u
        ∧ (ls = none ∨ ∃ t, ls = some t ∧ t < r.updated_at))
    ∧ (c ∈ categoriesQuery rc u ls ↔
      c ∈ rc ∧ c.user_id = u
        ∧ (ls = none ∨ ∃ t, ls = some t ∧ t < c.updated_at))
    ∧ (p ∈ preferencesQuery rp u ↔ p ∈ rp ∧ p.user_id = u) := by
  refine ⟨?_, ?_, ?_⟩
  · cases ls with
    | none => simp [expensesQuery, List.mem_filter, and_assoc]
    | some t =>
        simp [expensesQuery, List.mem_filter, and_assoc]
        exact fun _ => and_comm
  · cases ls with
    | none => simp [categoriesQuery, List.mem_filter, and_assoc]
    | some t =>
        simp [categoriesQuery, List.mem_filter, and_assoc]
        exact fun _ => and_comm
  · simp [preferencesQuery, List.mem_filter]

/-- A remote preferences row with updated_at well below the checkpoint. -/
def c8PrefsRow : RemotePrefsRow :=
  { id := 21, user_id := "u", date_format := "DD/MM/YYYY",
    default_currency := "USD", theme := "dark", created_at := 1,
    updated_at := 3 }

/-- The local preferences singleton before the pull. -/
def c8LocalPrefs : UserPreferences :=
  { id := "user-preferences", dateFormat := "DD/MM/YYYY",
    defaultCurrency := "INR", theme := "system" }

/-- Local store with a checkpoint newer than the remote preferences row. -/
def c8Db : LocalDb :=
  { expenses := [], categories := [], preferences := [c8LocalPrefs],
    syncQueue := [],
    syncMeta := some { lastSyncAt := some 10, userId := some "u" } }

/-- Remote store holding only the stale preferences row. -/
def c8Remote : RemoteDb :=
  { expenses := [], categories := [], preferences := [c8PrefsRow] }

/-- C8 counterexample: with lastSyncAt equal to 10, a preferences row whose
updated_at is 3 (not strictly greater than the checkpoint) is still
fetched and applied by pullChanges, so the incremental updated_at
restriction the claim states for all three tables does not hold for
preferences. -/
theorem preferences_pull_ignores_checkpoint :
    (c8Db.syncMeta.bind SyncMeta.lastSyncAt = some 10)
    ∧ (c8PrefsRow.updated_at < 10)
    ∧ ((pullChanges c8Remote noRemoteErrors "u" c8Db 20).2.preferences
      = [{ id := "user-preferences", dateFormat := "DD/MM/YYYY",
           defaultCurrency := "USD", theme := "dark" }]) :=
  ⟨by decide, by decide, by decide⟩

/-! ### Push-side remote semantics: idempotent upsert and soft delete -/

/-- JavaScript lookup of a payload field with || defaulting: a missing or
falsy value falls back to the default. -/
def jsOr (v : Option JsonVal) (d : JsonVal) : JsonVal :=
  match v with
  | some x => if x.truthy then x else d
  | none => d

/-- JavaScript truthiness of a possibly-missing payload field. -/
def jsTruthy (v : Option JsonVal) : Bool :=
  match v with
  | some x => x.truthy
  | none => false

/-- A row of the remote expenses table as written by the push pipeline;
payload-derived columns keep the dynamic values the upsert body carries. -/
structure PushedExpenseRow where
  id : Nat
  user_id : String
  local_id : String
  amount : Option JsonVal
  currency : Option JsonVal
  category : Option JsonVal
  description : JsonVal
  date : Option JsonVal
  is_recurring : JsonVal
  recurring_frequency : JsonVal
  created_at : Option JsonVal
  updated_at : Option JsonVal
  deleted_at : Option Nat
deriving DecidableEq, Repr

/-- A row of the remote categories table as written by the push pipeline. -/
structure PushedCategoryRow where
  id : Nat
  user_id : String
  local_id : String
  name : Option JsonVal
  icon : JsonVal
  color : JsonVal
  is_default : JsonVal
  is_hidden : JsonVal
  sort_order : JsonVal
  deleted_at : Option Nat
deriving DecidableEq, Repr

/-- A row of the remote user_preferences table as written by the push
pipeline. -/
structure PushedPrefsRow where
  id : Nat
  user_id : String
  date_format : Option JsonVal
  default_currency : Option JsonVal
  theme : Option JsonVal
deriving DecidableEq, Repr

/-- Generic upsert on one key predicate: update every conflicting row in
place (keeping its primary key), or append a fresh row. -/
def upsertBy {α : Type _} (km : α → Bool) (body : Nat → α) (idf : α → Nat)
    (table : List α) (freshId : Nat) : List α :=
  if table.any km then
    table.map (fun row => if km row then body (idf row) else row)
  else
    table ++ [body freshId]

/-- The column values the expense upsert sends (push.ts lines 85-100), as a
function of the primary key kept or assigned. -/
def expenseUpsertBody (userId : String) (a : SyncAction) (now : Nat)
    (rowId : Nat) : PushedExpenseRow :=
  { id := rowId
    user_id := userId
    local_id := a.entityId
    amount := a.payload.lookup "amount"
    currency := a.payload.lookup "currency"
    category := a.payload.lookup "category"
    description := jsOr (a.payload.lookup "description") (JsonVal.str "")
    date := a.payload.lookup "date"
    is_recurring := jsOr (a.payload.lookup "isRecurring") (JsonVal.boolV false)
    recurring_frequency := jsOr (a.payload.lookup "recurringFrequency") JsonVal.nullV
    created_at := a.payload.lookup "createdAt"
    updated_at := a.payload.lookup "updatedAt"
    deleted_at := if jsTruthy (a.payload.lookup "_deleted") then some now else none }

/-- Remote effect of pushExpenseAction (push.ts lines 73-133): create and
update upsert on the (user_id, local_id) conflict target; delete stamps
deleted_at on the rows of that key. -/
def pushExpenseActionRemote (userId : String) (a : SyncAction)
    (table : List PushedExpenseRow) (now freshId : Nat) :
    List PushedExpenseRow :=
  match a.operation with
  | SyncOperation.delete =>
      table.map (fun row =>
        if row.user_id == userId && row.local_id == a.entityId then
          { row with deleted_at := some now }
        else row)
  | _ =>
      upsertBy (fun row => row.user_id == userId && row.local_id == a.entityId)
        (expenseUpsertBody userId a now) (fun row => row.id) table freshId

/-- The column values the category upsert sends (push.ts lines 147-159). -/
def categoryUpsertBody (userId : String) (a : SyncAction) (now : Nat)
    (rowId : Nat) : PushedCategoryRow :=
  { id := rowId
    user_id := userId
    local_id := a.entityId
    name := a.payload.lookup "name"
    icon := jsOr (a.payload.lookup "icon") JsonVal.nullV
    color := jsOr (a.payload.lookup "color") JsonVal.nullV
    is_default := jsOr (a.payload.lookup "isDefault") (JsonVal.boolV false)
    is_hidden := jsOr (a.payload.lookup "isHidden") (JsonVal.boolV false)
    sort_order := jsOr (a.payload.lookup "order") (JsonVal.num 0)
    deleted_at := if jsTruthy (a.payload.lookup "_deleted") then some now else none }

/-- Remote effect of pushCategoryAction (push.ts lines 135-191). -/
def pushCategoryActionRemote (userId : String) (a : SyncAction)
    (table : List PushedCategoryRow) (now freshId : Nat) :
    List PushedCategoryRow :=
  match a.operation with
  | SyncOperation.delete =>
      table.map (fun row =>
        if row.user_id == userId && row.local_id == a.entityId then
          { row with deleted_at := some now }
        else row)
  | _ =>
      upsertBy (fun row => row.user_id == userId && row.local_id == a.entityId)
        (categoryUpsertBody userId a now) (fun row => row.id) table freshId

/-- The column values the preferences upsert sends (push.ts lines 200-209). -/
def prefsUpsertBody (userId : String) (a : SyncAction) (rowId : Nat) :
    PushedPrefsRow :=
  { id := rowId
    user_id := userId
    date_format := a.payload.lookup "dateFormat"
    default_currency := a.payload.lookup "defaultCurrency"
    theme := a.payload.lookup "theme" }

/-- Remote effect of pushPreferencesAction (push.ts lines 193-217): an
upsert on the user_id conflict target, for every operation. -/
def pushPreferencesActionRemote (userId : String) (a : SyncAction)
    (table : List PushedPrefsRow) (freshId : Nat) : List PushedPrefsRow :=
  upsertBy (fun row => row.user_id == userId) (prefsUpsertBody userId a)
    (fun row => row.id) table freshId

/-- The remote store as written by the push pipeline. -/
structure PushedRemoteDb where
  expenses : List PushedExpenseRow
  categories : List PushedCategoryRow
  preferences : List PushedPrefsRow
deriving DecidableEq, Repr

/-- Remote effect of pushAction (push.ts lines 56-71): dispatch by table. -/
def pushActionRemote (userId : String) (a : SyncAction)
    (s : PushedRemoteDb) (now freshId : Nat) : PushedRemoteDb :=
  match a.table with
  | SyncTable.expenses =>
      { s with expenses :=
          pushExpenseActionRemote userId a s.expenses now freshId }
  | SyncTable.categories =>
      { s with categories :=
          pushCategoryActionRemote userId a s.categories now freshId }
  | SyncTable.preferences =>
      { s with preferences :=
          pushPreferencesActionRemote userId a s.preferences freshId }

lemma map_comp_eq {α : Type _} (T : List α) (g1 g2 g3 : α → α)
    (h : ∀ r, g2 (g1 r) = g3 r) : (T.map g1).map g2 = T.map g3 := by
  induction T with
  | nil => rfl
  | cons x T ih => simp [h x, ih]

lemma map_id_of {α : Type _} (T : List α) (g : α → α)
    (h : ∀ r ∈ T, g r = r) : T.map g = T := by
  induction T with
  | nil => rfl
  | cons x T ih =>
      simp [h x (by simp), ih (fun r hr => h r (by simp [hr]))]

lemma upsertBy_twice {α : Type _} (T : List α) (km : α → Bool)
    (b1 b2 : Nat → α) (idf : α → Nat) (f : Nat)
    (hb1 : ∀ i, km (b1 i) = true)
    (hid : ∀ i, idf (b1 i) = i) :
    upsertBy km b2 idf (upsertBy km b1 idf T f) f
      = upsertBy km b2 idf T f := by
  unfold upsertBy
  by_cases hany : T.any km = true
  · rw [if_pos hany]
    have hany2 : (T.map (fun row => if km row then b1 (idf row) else row)).any
        km = true := by
      rcases List.any_eq_true.mp hany with ⟨r, hr, hkr⟩
      exact List.any_eq_true.mpr
        ⟨_, List.mem_map_of_mem _ hr, by simp [hkr, hb1]⟩
    rw [if_pos hany2, if_pos hany]
    apply map_comp_eq
    intro r
    by_cases hr : km r = true
    · simp [hr, hb1, hid]
    · simp [hr]
  · rw [if_neg hany]
    have hany2 : (T ++ [b1 f]).any km = true :=
      List.any_eq_true.mpr ⟨b1 f, by simp, hb1 f⟩
    rw [if_pos hany2, if_neg hany]
    rw [List.map_append]
    have h1 : T.map (fun row => if km row then b2 (idf row) else row) = T := by
      apply map_id_of
      intro r hr
      have hkr : ¬ km r = true := by
        intro hk
        exact hany (List.any_eq_true.mpr ⟨r, hr, hk⟩)
      simp [hkr]
    rw [h1]
    simp [hb1, hid]

lemma upsertBy_keys_nodup {α κ : Type _} [DecidableEq κ] (T : List α)
    (km : α → Bool) (kf : α → κ) (k : κ) (b : Nat → α) (idf : α → Nat)
    (f : Nat)
    (hkm : ∀ r, km r = true ↔ kf r = k)
    (hbk : ∀ i, kf (b i) = k)
    (h : (T.map kf).Nodup) :
    ((upsertBy km b idf T f).map kf).Nodup := by
  unfold upsertBy
  by_cases hany : T.any km = true
  · rw [if_pos hany]
    have : (T.map (fun row => if km row then b (idf row) else row)).map kf
        = T.map kf := by
      rw [List.map_map]
      apply List.map_congr_left
      intro r _
      by_cases hr : km r = true
      · simp only [Function.comp, hr, if_pos]
        rw [hbk, (hkm r).mp hr]
      · simp [Function.comp, hr]
    rw [this]
    exact h
  · rw [if_neg hany]
    rw [List.map_append]
    have hnotmem : k ∉ T.map kf := by
      intro hk
      rcases List.mem_map.mp hk with ⟨r, hr, hkr⟩
      exact hany (List.any_eq_true.mpr ⟨r, hr, (hkm r).mpr hkr⟩)
    simp [List.nodup_append, h, hbk, hnotmem]

lemma stamp_twice {α : Type _} (T : List α) (km : α → Bool)
    (st : Nat → α → α) (t1 t2 : Nat)
    (hkm : ∀ t r, km (st t r) = km r)
    (hcomp : ∀ r, st t2 (st t1 r) = st t2 r) :
    (T.map (fun row => if km row then st t1 row else row)).map
        (fun row => if km row then st t2 row else row)
      = T.map (fun row => if km row then st t2 row else row) := by
  apply map_comp_eq
  intro r
  by_cases hr : km r = true
  · simp [hr, hkm, hcomp]
  · simp [hr]

lemma stamp_keys_eq {α κ : Type _} (T : List α) (km : α → Bool)
    (kf : α → κ) (g : α → α) (hg : ∀ r, kf (g r) = kf r) :
    (T.map (fun row => if km row then g row else row)).map kf = T.map kf := by
  rw [List.map_map]
  apply List.map_congr_left
  intro r _
  by_cases hr : km r = true
  · simp [Function.comp, hr, hg]
  · simp [Function.comp, hr]

lemma pushExpense_twice (userId : String) (a : SyncAction)
    (T : List PushedExpenseRow) (t1 t2 f : Nat) :
    pushExpenseActionRemote userId a
        (pushExpenseActionRemote userId a T t1 f) t2 f
      = pushExpenseActionRemote userId a T t2 f := by
  cases hop : a.operation with
  | delete =>
      simp only [pushExpenseActionRemote, hop]
      exact stamp_twice T _ (fun t r => { r with deleted_at := some t }) t1 t2
        (fun t r => rfl) (fun r => rfl)
  | create =>
      simp only [pushExpenseActionRemote, hop]
      exact upsertBy_twice T _ _ _ _ f
        (fun i => by simp [expenseUpsertBody]) (fun i => rfl)
  | update =>
      simp only [pushExpenseActionRemote, hop]
      exact upsertBy_twice T _ _ _ _ f
        (fun i => by simp [expenseUpsertBody]) (fun i => rfl)

lemma pushExpense_keys (userId : String) (a : SyncAction)
    (T : List PushedExpenseRow) (t1 f : Nat)
    (h : (T.map (fun r => (r.user_id, r.local_id))).Nodup) :
    ((pushExpenseActionRemote userId a T t1 f).map
      (fun r => (r.user_id, r.local_id))).Nodup := by
  cases hop : a.operation with
  | delete =>
      simp only [pushExpenseActionRemote, hop]
      rw [stamp_keys_eq T _ (fun r => (r.user_id, r.local_id))
        (fun r => { r with deleted_at := some t1 }) (fun r => rfl)]
      exact h
  | create =>
      simp only [pushExpenseActionRemote, hop]
      exact upsertBy_keys_nodup T _ _ (userId, a.entityId) _ _ f
        (fun r => by simp [Prod.ext_iff]) (fun i => rfl) h
  | update =>
      simp only [pushExpenseActionRemote, hop]
      exact upsertBy_keys_nodup T _ _ (userId, a.entityId) _ _ f
        (fun r => by simp [Prod.ext_iff]) (fun i => rfl) h

lemma pushCategory_twice (userId : String) (a : SyncAction)
    (T : List PushedCategoryRow) (t1 t2 f : Nat) :
    pushCategoryActionRemote userId a
        (pushCategoryActionRemote userId a T t1 f) t2 f
      = pushCategoryActionRemote userId a T t2 f := by
  cases hop : a.operation with
  | delete =>
      simp only [pushCategoryActionRemote, hop]
      exact stamp_twice T _ (fun t r => { r with deleted_at := some t }) t1 t2
        (fun t r => rfl) (fun r => rfl)
  | create =>
      simp only [pushCategoryActionRemote, hop]
      exact upsertBy_twice T _ _ _ _ f
        (fun i => by simp [categoryUpsertBody]) (fun i => rfl)
  | update =>
      simp only [pushCategoryActionRemote, hop]
      exact upsertBy_twice T _ _ _ _ f
        (fun i => by simp [categoryUpsertBody]) (fun i => rfl)

lemma pushCategory_keys (userId : String) (a : SyncAction)
    (T : List PushedCategoryRow) (t1 f : Nat)
    (h : (T.map (fun r => (r.user_id, r.local_id))).Nodup) :
    ((pushCategoryActionRemote userId a T t1 f).map
      (fun r => (r.user_id, r.local_id))).Nodup := by
  cases hop : a.operation with
  | delete =>
      simp only [pushCategoryActionRemote, hop]
      rw [stamp_keys_eq T _ (fun r => (r.user_id, r.local_id))
        (fun r => { r with deleted_at := some t1 }) (fun r => rfl)]
      exact h
  | create =>
      simp only [pushCategoryActionRemote, hop]
      exact upsertBy_keys_nodup T _ _ (userId, a.entityId) _ _ f
        (fun r => by simp [Prod.ext_iff]) (fun i => rfl) h
  | update =>
      simp only [pushCategoryActionRemote, hop]
      exact upsertBy_keys_nodup T _ _ (userId, a.entityId) _ _ f
        (fun r => by simp [Prod.ext_iff]) (fun i => rfl) h

lemma pushPrefs_twice (userId : String) (a : SyncAction)
    (T : List PushedPrefsRow) (f : Nat) :
    pushPreferencesActionRemote userId a
        (pushPreferencesActionRemote userId a T f) f
      = pushPreferencesActionRemote userId a T f := by
  unfold pushPreferencesActionRemote
  exact upsertBy_twice T _ _ _ _ f (fun i => by simp [prefsUpsertBody]) (fun i => rfl)

lemma pushPrefs_keys (userId : String) (a : SyncAction)
    (T : List PushedPrefsRow) (f : Nat)
    (h : (T.map (fun r => r.user_id)).Nodup) :
    ((pushPreferencesActionRemote userId a T f).map
      (fun r => r.user_id)).Nodup := by
  unfold pushPreferencesActionRemote
  exact upsertBy_keys_nodup T _ _ userId _ _ f (fun r => by simp)
    (fun i => rfl) h

/-- C9: transmitting the same queued action a second time (here at clock
t2 with the same fresh-id source) leaves the affected remote table in the
exact state one transmit at t2 produces — in particular a retry is
absorbed with no duplicate rows — and every transmit preserves key
uniqueness: create and update are upserts keyed on (user_id, local_id)
(on user_id for preferences) that update the conflicting row in place,
and delete is a soft-delete update scoped to (user_id, local_id). -/
theorem push_transmit_idempotent (userId : String) (a : SyncAction)
    (s : PushedRemoteDb) (t1 t2 f : Nat) :
    (pushActionRemote userId a (pushActionRemote userId a s t1 f) t2 f
      = pushActionRemote userId a s t2 f)
    ∧ ((s.expenses.map (fun r => (r.user_id, r.local_id))).Nodup →
        ((pushActionRemote userId a s t1 f).expenses.map
          (fun r => (r.user_id, r.local_id))).Nodup)
    ∧ ((s.categories.map (fun r => (r.user_id, r.local_id))).Nodup →
        ((pushActionRemote userId a s t1 f).categories.map
          (fun r => (r.user_id, r.local_id))).Nodup)
    ∧ ((s.preferences.map (fun r => r.user_id)).Nodup →
        ((pushActionRemote userId a s t1 f).preferences.map
          (fun r => r.user_id)).Nodup) := by
  cases ht : a.table with
  | expenses =>
      refine ⟨?_, ?_, ?_, ?_⟩
      · simp [pushActionRemote, ht, pushExpense_twice]
      · intro h
        simpa [pushActionRemote, ht] using
          pushExpense_keys userId a s.expenses t1 f h
      · intro h
        simpa [pushActionRemote, ht] using h
      · intro h
        simpa [pushActionRemote, ht] using h
  | categories =>
      refine ⟨?_, ?_, ?_, ?_⟩
      · simp [pushActionRemote, ht, pushCategory_twice]
      · intro h
        simpa [pushActionRemote, ht] using h
      · intro h
        simpa [pushActionRemote, ht] using
          pushCategory_keys userId a s.categories t1 f h
      · intro h
        simpa [pushActionRemote, ht] using h
  | preferences =>
      refine ⟨?_, ?_, ?_, ?_⟩
      · simp [pushActionRemote, ht, pushPrefs_twice]
      · intro h
        simpa [pushActionRemote, ht] using h
      · intro h
        simpa [pushActionRemote, ht] using h
      · intro h
        simpa [pushActionRemote, ht] using
          pushPrefs_keys userId a s.preferences f h

/-- A queued create action for the idempotence witness. -/
def c9Action : SyncAction :=
  { id := 2, table := SyncTable.expenses,
    operation := SyncOperation.create, entityId := "e1",
    payload := [("amount", JsonVal.num 500)], timestamp := 0,
    retryCount := 0 }

/-- An empty push-side remote store. -/
def c9EmptyRemote : PushedRemoteDb :=
  { expenses := [], categories := [], preferences := [] }

theorem push_transmit_idempotent_witness :
    (pushActionRemote "u" c9Action
        (pushActionRemote "u" c9Action c9EmptyRemote 1 5) 1 5
      = pushActionRemote "u" c9Action c9EmptyRemote 1 5)
    ∧ ((pushActionRemote "u" c9Action c9EmptyRemote 1 5).expenses.map
        (fun r => (r.user_id, r.local_id))).Nodup := by
  have h := push_transmit_idempotent "u" c9Action c9EmptyRemote 1 1 5
  exact ⟨h.1, h.2.1 (by decide)⟩

end LogEx
